import Mathlib

/-!
Verification of the carta conversation-tree analyzer.

The Python sources under src/carta are shallowly embedded here:
Python dicts with a fixed key set become structures with Option-valued
fields (none = key absent), the node mapping becomes an association list
in insertion order, and the two while-loops of the path analyzer become
fuel-indexed recursions whose result distinguishes normal completion
from a still-running loop.  IEEE floating point arithmetic appearing in
the cosine-distance code is represented symbolically over the rationals:
the embedded value records exactly which arithmetic expression the
Python code builds (including the division by a zero norm product).
-/

set_option maxHeartbeats 1000000

/-- Symbolic value of a Python cosine similarity.  The rational payloads
carry the exact data the source computes with; the (generally irrational)
value is kept as the expression dot / (sqrt n1sq * sqrt n2sq). -/
inductive SimVal where
  /-- an exact literal, e.g. the 0.0 returned by the empty-input guard -/
  | lit (q : ℚ)
  /-- dot / (sqrt n1sq * sqrt n2sq) with n1sq * n2sq ≠ 0 -/
  | simQ (dot n1sq n2sq : ℚ)
  /-- dot divided by a zero norm product: IEEE evaluates this to nan -/
  | nanDiv (dot : ℚ)
deriving DecidableEq, Repr

/-- Symbolic value of a Python float stored in a derived semantic field. -/
inductive FloatVal where
  /-- 1.0 - s, the cosine distance of similarity s -/
  | distOf (s : SimVal)
  /-- the sibling-dispersion average: sum over the distances 1.0 - s for
  s in xs, divided by the length of xs -/
  | meanOf (xs : List SimVal)
deriving DecidableEq, Repr

/-- The message sub-dict of a processed node, as built by extract_node_data.
Fields not read by any analyzed function (create_time, metadata) are omitted. -/
structure Message where
  role : Option String
  text : String
  content_type : String
deriving DecidableEq, Repr

/-- The derived sub-dict of a processed node.  Fields written with a plain
value by process_nodes keep that type with the dict-read default recorded
by the field default; fields read elsewhere with a None default are Option
(none = key absent or stored None, which no reader distinguishes). -/
structure Derived where
  path_from_root : List String := []
  is_mainline : Bool := false
  is_terminal : Bool := false
  siblings_count : Nat := 0
  branch_depth : Nat := 0
  is_regeneration : Bool := false
  mainline_divergence_point : Option String := none
  replaced_node_id : Option String := none
  semantic_distance_from_parent : Option FloatVal := none
  turn_number : Option Nat := none
  generation_type : Option String := none
  avg_sibling_semantic_distance : Option FloatVal := none
  semantic_distance_from_mainline : Option FloatVal := none
  mainline_semantic_distance : Option FloatVal := none
deriving DecidableEq, Repr

/-- A processed node dict.  is_user is the key read by is_regeneration and
determine_generation_type; extract_node_data never writes it, so it is none
on every node the parser produces.  embedding is the key attached by the
embedder (none = key absent). -/
structure PNode where
  id : String := ""
  parent_id : Option String := none
  children_ids : List String := []
  is_user : Option Bool := none
  message : Option Message := none
  embedding : Option (List ℚ) := none
  derived : Option Derived := none
deriving DecidableEq, Repr

/-- One element of a multimodal content parts list: a plain string, a dict
whose only read key is the optional text, or any other value (skipped). -/
inductive CPart where
  | pstr (s : String)
  | pdict (text : Option String)
  | pother
deriving DecidableEq, Repr

/-- A raw message content value.  cabsent stands for a missing content key or
any falsy non-dict value; cdict carries the three keys the extractors read
(a dict none of whose three read keys is present models the empty dict). -/
inductive RawContent where
  | cabsent
  | cstr (s : String)
  | cdict (content_type : Option String) (parts : Option (List CPart)) (text : Option String)
deriving DecidableEq, Repr

/-- Python truthiness of a content value: None and the empty string and the
empty dict are falsy. -/
def RawContent.falsy : RawContent → Bool
  | .cabsent => true
  | .cstr s => s = ""
  | .cdict ct ps tx => ct = none && ps = none && tx = none

/-- The message sub-dict of a raw export node; author.role is collapsed to
one optional field exactly as extract_node_data reads it. -/
structure RawMessage where
  author_role : Option String := none
  content : RawContent := .cabsent
deriving DecidableEq, Repr

/-- One value of the raw export mapping: the keys read by find_root_nodes
and extract_node_data. -/
structure RawNode where
  parent : Option String := none
  children : List String := []
  message : Option RawMessage := none
deriving DecidableEq, Repr

/-- The raw export dict as read by find_current_node: only the current_node
key matters.  The outer Option is key presence; the inner is the stored
value, which may itself be null. -/
structure ExportData where
  current_node : Option (Option String) := none
deriving DecidableEq, Repr

/-- Dict lookup on an association list in insertion order (Python dict keys
are unique, so first match is the binding). -/
def lookupA {α : Type} : List (String × α) → String → Option α
  | [], _ => none
  | (k, v) :: rest, i => if k = i then some v else lookupA rest i

/-- The key list of a mapping, in iteration order. -/
def keysOf {α : Type} (ns : List (String × α)) : List String :=
  ns.map Prod.fst

/-- Python truthiness of an optional bool (a dict value read with .get). -/
def truthyOB : Option Bool → Bool
  | some b => b
  | none => false

/-- node_processor._extract_content: text and content type from a raw
content value.  The parts loop concatenates contributions with the string
+= operator, i.e. with no separator. -/
def extract_content (content : RawContent) : String × String :=
  if content.falsy then ("", "text")
  else
    match content with
    | .cabsent => ("", "text")
    | .cstr s => (s, "text")
    | .cdict ct ps tx =>
      let ctype := ct.getD "text"
      match ps with
      | some parts =>
        (parts.foldl (fun acc p =>
          match p with
          | .pstr s => acc ++ s
          | .pdict (some t) => acc ++ t
          | _ => acc) "", ctype)
      | none =>
        match tx with
        | some t => (t, ctype)
        | none => ("", ctype)

/-- node_processor.extract_node_data: the processed node built from one raw
mapping entry.  Note that no is_user key is written. -/
def extract_node_data (node_id : String) (nd : RawNode) : PNode :=
  let content := match nd.message with
                 | some m => m.content
                 | none => .cabsent
  let tc := extract_content content
  { id := node_id
    parent_id := nd.parent
    children_ids := nd.children
    is_user := none
    message := some { role := nd.message.bind (·.author_role)
                      text := tc.1
                      content_type := tc.2 }
    embedding := none
    derived := none }

/-- Result of running one of the upward while-loops with a given amount of
fuel: done is a normal exit, running means the loop had not exited when the
fuel ran out, keyError models the nodes[current] indexing failing
(unreachable from the two entry points). -/
inductive LoopResult where
  | done (path : List String)
  | running
  | keyError
deriving DecidableEq, Repr

/-- The while-loop of path_analyzer.compute_path_from_root.  Each iteration
appends the current id, reads its parent, exits on a missing or unknown
parent, and exits when the parent is already in the accumulated path (the
cycle guard).  The empty string is falsy, so the loop also exits when the
current id is empty. -/
def pathLoop (nodes : List (String × PNode)) : List String → String → Nat → LoopResult
  | _, _, 0 => .running
  | path, current, fuel + 1 =>
    if current = "" then .done path
    else
      match lookupA nodes current with
      | none => .keyError
      | some nd =>
        match nd.parent_id with
        | none => .done (path ++ [current])
        | some pid =>
          if lookupA nodes pid = none then .done (path ++ [current])
          else if pid ∈ path ++ [current] then .done (path ++ [current])
          else pathLoop nodes (path ++ [current]) pid fuel

/-- path_analyzer.compute_path_from_root with the loop fuel made explicit.
On normal exit the accumulated path is reversed, as in the source. -/
def compute_path_from_rootF (nodes : List (String × PNode)) (node_id : String)
    (fuel : Nat) : LoopResult :=
  if lookupA nodes node_id = none then .done []
  else
    match pathLoop nodes [] node_id fuel with
    | .done p => .done p.reverse
    | r => r

/-- path_analyzer.compute_path_from_root as the total function it is: the
cycle guard bounds the loop by the number of distinct keys, so fuel
nodes.length + 1 always suffices (proved below); the fallback branch is
dead code. -/
def compute_path_from_root (nodes : List (String × PNode)) (node_id : String) : List String :=
  match compute_path_from_rootF nodes node_id (nodes.length + 1) with
  | .done p => p
  | _ => []

/-- The while-loop of path_analyzer.determine_mainline_path.  Identical to
pathLoop except that there is no cycle guard. -/
def mainlineLoop (nodes : List (String × PNode)) : List String → String → Nat → LoopResult
  | _, _, 0 => .running
  | path, current, fuel + 1 =>
    if current = "" then .done path
    else
      match lookupA nodes current with
      | none => .keyError
      | some nd =>
        match nd.parent_id with
        | none => .done (path ++ [current])
        | some pid =>
          if lookupA nodes pid = none then .done (path ++ [current])
          else mainlineLoop nodes (path ++ [current]) pid fuel

/-- path_analyzer.determine_mainline_path with the loop fuel made explicit
(the loop has no cycle guard, so no finite fuel works on cyclic input). -/
def determine_mainline_path (nodes : List (String × PNode))
    (current_node_id : Option String) (fuel : Nat) : LoopResult :=
  match current_node_id with
  | none => .done []
  | some cid =>
    if lookupA nodes cid = none then .done []
    else
      match mainlineLoop nodes [] cid fuel with
      | .done p => .done p.reverse
      | r => r

/-- path_analyzer.find_root_nodes: ids whose parent value is null, in
mapping iteration order. -/
def find_root_nodes (mapping : List (String × RawNode)) : List String :=
  (mapping.filter (fun e => e.2.parent = none)).map Prod.fst

/-- path_analyzer.find_current_node: the stored current_node value verbatim
when the key is present, else the last root, else null. -/
def find_current_node (data : ExportData) (mapping : List (String × RawNode)) :
    Option String :=
  match data.current_node with
  | some v => v
  | none => (find_root_nodes mapping).getLast?

/-- The scan of path_analyzer.find_divergence_point: walk both sequences in
lockstep, remembering the last agreeing element, stopping at the first
mismatch or when either sequence ends. -/
def divergeScan : List String → List String → Option String → Option String
  | a :: as, b :: bs, acc => if a = b then divergeScan as bs (some a) else acc
  | _, _, acc => acc

/-- path_analyzer.find_divergence_point. -/
def find_divergence_point (path mainline_path : List String) : Option String :=
  if path = [] ∨ mainline_path = [] then none
  else divergeScan path mainline_path none

/-- node_processor.count_siblings.  The falsy test on the parent id treats
None and the empty string alike. -/
def count_siblings (nodes : List (String × PNode)) (node_id : String) : Nat :=
  match lookupA nodes node_id with
  | none => 0
  | some nd =>
    match nd.parent_id with
    | none => 0
    | some pid =>
      if pid = "" then 0
      else
        match lookupA nodes pid with
        | none => 0
        | some parent => (parent.children_ids.filter (fun c => c ≠ node_id)).length

/-- node_processor.is_regeneration.  Every is_user read is a .get on a key
that extract_node_data never writes. -/
def is_regeneration (nodes : List (String × PNode)) (node_id : String) : Bool :=
  match lookupA nodes node_id with
  | none => false
  | some nd =>
    if truthyOB nd.is_user then false
    else
      match nd.parent_id with
      | none => false
      | some pid =>
        if pid = "" then false
        else
          match lookupA nodes pid with
          | none => false
          | some parent =>
            if !truthyOB parent.is_user then false
            else
              decide (1 < (parent.children_ids.filter (fun c =>
                match lookupA nodes c with
                | some cn => !truthyOB cn.is_user
                | none => false)).length)

/-- node_processor.compute_turn_number: the length of the recomputed
path from root. -/
def compute_turn_number (nodes : List (String × PNode)) (node_id : String) : Nat :=
  (compute_path_from_root nodes node_id).length

/-- node_processor.determine_generation_type.  The missing node defaults to
the empty dict, whose is_user and parent_id reads give None. -/
def determine_generation_type (nodes : List (String × PNode)) (node_id : String) : String :=
  let isu := match lookupA nodes node_id with
             | some nd => nd.is_user
             | none => none
  let pid := match lookupA nodes node_id with
             | some nd => nd.parent_id
             | none => none
  if truthyOB isu then
    if pid = none ∨ pid = some "" then "initial_prompt" else "user_continuation"
  else
    if is_regeneration nodes node_id then "regeneration" else "standard_response"

/-- The derived dict filled in for one node by the second loop of
node_processor.process_nodes. -/
def mkDerived (nodes : List (String × PNode)) (mainline_path : List String)
    (node_id : String) (nd : PNode) : Derived :=
  let path := compute_path_from_root nodes node_id
  { path_from_root := path
    is_mainline := node_id ∈ mainline_path
    is_terminal := nd.children_ids = []
    siblings_count := count_siblings nodes node_id
    branch_depth := if path ≠ [] then path.length - 1 else 0
    is_regeneration := is_regeneration nodes node_id
    mainline_divergence_point :=
      if node_id ∈ mainline_path then none
      else find_divergence_point path mainline_path
    replaced_node_id := none
    semantic_distance_from_parent := none
    turn_number := some (compute_turn_number nodes node_id)
    generation_type := some (determine_generation_type nodes node_id)
    avg_sibling_semantic_distance := none
    semantic_distance_from_mainline := none
    mainline_semantic_distance := none }

/-- The first loop of node_processor.process_nodes: extract every raw
mapping entry into a processed node, keys unchanged. -/
def extractAll (mapping : List (String × RawNode)) : List (String × PNode) :=
  mapping.map (fun e => (e.1, extract_node_data e.1 e.2))

/-- node_processor.process_nodes.  The first loop extracts every node, the
mainline walk runs once, and the second loop attaches the derived dict to
each node; the loop mutates only the derived key, which none of the helper
reads touch, so it is a pointwise map over the extracted mapping.  The
result is none when the (unguarded) mainline walk failed to finish within
the given fuel. -/
def process_nodes (mapping : List (String × RawNode)) (current_node_id : Option String)
    (fuel : Nat) : Option (List (String × PNode)) :=
  match determine_mainline_path (extractAll mapping) current_node_id fuel with
  | .done mp =>
    some ((extractAll mapping).map (fun e =>
      (e.1, { e.2 with derived := some (mkDerived (extractAll mapping) mp e.1 e.2) })))
  | _ => none

/-- The author role of a processed node, as the chained .get reads of
pair_creator extract it. -/
def author_role (n : PNode) : Option String :=
  n.message.bind (·.role)

/-- derived.get('is_mainline', False) through a possibly absent derived. -/
def derived_is_mainline (n : PNode) : Bool :=
  (n.derived.map (·.is_mainline)).getD false

/-- derived.get('turn_number') through a possibly absent derived (None
default). -/
def derived_turn_number (n : PNode) : Option Nat :=
  n.derived.bind (·.turn_number)

/-- One emitted prompt-response pair of pair_creator.create_pairs. -/
structure Pair where
  id : String
  prompt_id : String
  response_id : String
  is_mainline : Bool
  is_alternate : Bool
  turn_number : Nat
  branch_depth : Nat
  path_from_root : List String
deriving DecidableEq, Repr

/-- pair_creator.create_pairs.  A PNode value is a record, never the falsy
empty dict, and always carries a message key, so the guard on the node
reduces to the role test; the emitted fields follow the source literally,
including the floor division of the response turn number by two. -/
def create_pairs (nodes : List (String × PNode)) : List Pair :=
  (nodes.map (fun e =>
    if author_role e.2 ≠ some "user" then []
    else
      e.2.children_ids.filterMap (fun cid =>
        match lookupA nodes cid with
        | none => none
        | some child =>
          if author_role child = some "assistant" then
            some { id := e.1 ++ "_" ++ cid
                   prompt_id := e.1
                   response_id := cid
                   is_mainline := derived_is_mainline e.2 && derived_is_mainline child
                   is_alternate := !(derived_is_mainline e.2 && derived_is_mainline child)
                   turn_number := (derived_turn_number child).getD 0 / 2
                   branch_depth := (child.derived.map (·.branch_depth)).getD 0
                   path_from_root := (e.2.derived.map (·.path_from_root)).getD [] }
          else none))).flatten

/-- Sum of squares of a vector: the square of np.linalg.norm, which is zero
exactly when the norm is. -/
def normSq (v : List ℚ) : ℚ :=
  (v.map (fun x => x * x)).sum

/-- np.dot of two equal-length vectors. -/
def dotL (v w : List ℚ) : ℚ :=
  ((v.zip w).map (fun p => p.1 * p.2)).sum

/-- openai_utils.OpenAIEmbedder.calculate_cosine_similarity.  The only
guard in the source tests list emptiness; with non-empty inputs the value
dot/(norm1*norm2) is formed unconditionally, and a zero norm product makes
IEEE division return nan. -/
def calculate_cosine_similarity (e1 e2 : List ℚ) : SimVal :=
  if e1 = [] ∨ e2 = [] then .lit 0
  else if normSq e1 * normSq e2 = 0 then .nanDiv (dotL e1 e2)
  else .simQ (dotL e1 e2) (normSq e1) (normSq e2)

/-- openai_utils.OpenAIEmbedder.calculate_cosine_distance: 1 − similarity. -/
def calculate_cosine_distance (e1 e2 : List ℚ) : FloatVal :=
  .distOf (calculate_cosine_similarity e1 e2)

/-- Store a value under derived.semantic_distance_from_parent, creating the
derived dict when absent, as the passes do. -/
def setSDFP (n : PNode) (d : FloatVal) : PNode :=
  let dv := n.derived.getD {}
  { n with derived := some { dv with semantic_distance_from_parent := some d } }

/-- Store a value under derived.avg_sibling_semantic_distance. -/
def setASD (n : PNode) (d : FloatVal) : PNode :=
  let dv := n.derived.getD {}
  { n with derived := some { dv with avg_sibling_semantic_distance := some d } }

/-- Store a value under derived.semantic_distance_from_mainline. -/
def setSDFM (n : PNode) (d : FloatVal) : PNode :=
  let dv := n.derived.getD {}
  { n with derived := some { dv with semantic_distance_from_mainline := some d } }

/-- Store a value under derived.mainline_semantic_distance. -/
def setMSD (n : PNode) (d : FloatVal) : PNode :=
  let dv := n.derived.getD {}
  { n with derived := some { dv with mainline_semantic_distance := some d } }

/-- The loop body of semantic_analyzer.calculate_parent_child_distances for
one node (CartaEmbedder._calculate_semantic_ancestry inlines the identical
loop).  Both embedding reads are truthiness guards, so a present but empty
list is skipped while a non-empty zero vector is not. -/
def parentChildStep (nodes : List (String × PNode)) (_node_id : String) (node : PNode) : PNode :=
  match node.parent_id with
  | none => node
  | some pid =>
    if pid = "" then node
    else
      match lookupA nodes pid with
      | none => node
      | some parent =>
        match parent.embedding, node.embedding with
        | some (p :: ps), some (q :: qs) =>
          setSDFP node (calculate_cosine_distance (p :: ps) (q :: qs))
        | _, _ => node

/-- semantic_analyzer.calculate_parent_child_distances.  The loop mutates
only fields it never reads, so it is a pointwise map. -/
def calculate_parent_child_distances (nodes : List (String × PNode)) :
    List (String × PNode) :=
  nodes.map (fun e => (e.1, parentChildStep nodes e.1 e.2))

/-- The loop body of semantic_analyzer.calculate_sibling_distances for one
node.  The sibling scan compares parent_id values over the whole mapping;
the embedding guard on the node itself and on each sibling is a key
presence test, not a truthiness test. -/
def siblingStep (nodes : List (String × PNode)) (node_id : String) (node : PNode) : PNode :=
  match node.parent_id with
  | none => node
  | some pid =>
    if pid = "" then node
    else if lookupA nodes pid = none then node
    else
      let siblings := (nodes.filter (fun s =>
        decide (s.2.parent_id = some pid ∧ s.1 ≠ node_id))).map Prod.fst
      if siblings = [] then node
      else
        match node.embedding with
        | none => node
        | some ne =>
          let ds := siblings.filterMap (fun sid =>
            (lookupA nodes sid).bind (fun s =>
              s.embedding.map (fun se => calculate_cosine_similarity ne se)))
          if ds = [] then node
          else setASD node (.meanOf ds)

/-- semantic_analyzer.calculate_sibling_distances as a pointwise map. -/
def calculate_sibling_distances (nodes : List (String × PNode)) :
    List (String × PNode) :=
  nodes.map (fun e => (e.1, siblingStep nodes e.1 e.2))

/-- derived.get('mainline_divergence_point') through a possibly absent
derived. -/
def derived_divergence_point (n : PNode) : Option String :=
  n.derived.bind (·.mainline_divergence_point)

/-- The loop body of the third pass of
CartaEmbedder._calculate_semantic_ancestry for one branch node: find the
first mainline node with the same turn number and store the distance to it
under mainline_semantic_distance.  Both embedding guards are key presence
tests. -/
def embedderMainlineStep (nodes : List (String × PNode)) (_node_id : String)
    (node : PNode) : PNode :=
  if derived_is_mainline node then node
  else
    match derived_turn_number node with
    | none => node
    | some t =>
      match (nodes.filter (fun s => derived_is_mainline s.2)).find?
          (fun s => decide (derived_turn_number s.2 = some t)) with
      | none => node
      | some m =>
        match node.embedding, m.2.embedding with
        | some be, some me => setMSD node (calculate_cosine_distance be me)
        | _, _ => node

/-- The third pass of CartaEmbedder._calculate_semantic_ancestry as a
pointwise map. -/
def embedder_mainline_pass (nodes : List (String × PNode)) : List (String × PNode) :=
  nodes.map (fun e => (e.1, embedderMainlineStep nodes e.1 e.2))

/-- CartaEmbedder._calculate_semantic_ancestry: the three sequential passes
run by the pipeline.  The first two inline the same loops as the
semantic_analyzer module functions; the third matches branch nodes to
mainline nodes by turn number. -/
def calculate_semantic_ancestry_embedder (nodes : List (String × PNode)) :
    List (String × PNode) :=
  embedder_mainline_pass (calculate_sibling_distances (calculate_parent_child_distances nodes))

/-- The loop body of semantic_analyzer.calculate_branch_mainline_distances
for one branch node: follow the stored divergence point into the filtered
mainline sub-dict and store the distance under
semantic_distance_from_mainline.  The divergence point and both embeddings
are truthiness guards. -/
def branchMainlineStep (nodes : List (String × PNode)) (_node_id : String)
    (node : PNode) : PNode :=
  if derived_is_mainline node then node
  else
    match derived_divergence_point node with
    | none => node
    | some dp =>
      if dp = "" then node
      else
        match lookupA (nodes.filter (fun s => derived_is_mainline s.2)) dp with
        | none => node
        | some m =>
          match node.embedding, m.embedding with
          | some (b :: bs), some (c :: cs) =>
            setSDFM node (calculate_cosine_distance (b :: bs) (c :: cs))
          | _, _ => node

/-- semantic_analyzer.calculate_branch_mainline_distances as a pointwise
map.  The pipeline never invokes this function. -/
def calculate_branch_mainline_distances (nodes : List (String × PNode)) :
    List (String × PNode) :=
  nodes.map (fun e => (e.1, branchMainlineStep nodes e.1 e.2))

/-- A node dict as node_embedder.extract_node_text reads it: an optional
top-level text key and the optional message. -/
structure ENode where
  text : Option String := none
  message : Option RawMessage := none
deriving DecidableEq, Repr

/-- The contribution scan of node_embedder.extract_node_text over a parts
list: texts of string parts and of dict parts carrying a text key. -/
def partTexts (parts : List CPart) : List String :=
  parts.filterMap (fun p =>
    match p with
    | .pstr s => some s
    | .pdict (some t) => some t
    | _ => none)

/-- node_embedder.extract_node_text.  An ENode value is a record, never the
falsy empty dict.  The single-text branch is tried before the parts branch
(the opposite order from node_processor._extract_content), and collected
part texts are joined with a single space. -/
def extract_node_text (node : ENode) : Option String :=
  match node.message with
  | none => none
  | some msg =>
    if (node.text.getD "") ≠ "" then node.text
    else
      match msg.content with
      | .cdict _ _ (some t) => some t
      | .cdict _ (some parts) none =>
        let texts := partTexts parts
        if texts = [] then none else some (String.intercalate " " texts)
      | _ => none

/-! ### Association-list lemmas -/

theorem lookupA_isSome_iff {α : Type} (ns : List (String × α)) (k : String) :
    (lookupA ns k).isSome = true ↔ k ∈ keysOf ns := by
  induction ns with
  | nil => simp [lookupA, keysOf]
  | cons e rest ih =>
    obtain ⟨k1, v1⟩ := e
    by_cases h : k1 = k
    · subst h
      simp [lookupA, keysOf]
    · simp only [lookupA, if_neg h, keysOf, List.map_cons, List.mem_cons]
      rw [ih]
      constructor
      · intro hm
        exact Or.inr hm
      · intro hc
        rcases hc with hc | hm
        · exact absurd hc.symm h
        · exact hm

theorem lookupA_eq_none_iff {α : Type} (ns : List (String × α)) (k : String) :
    lookupA ns k = none ↔ k ∉ keysOf ns := by
  rw [← lookupA_isSome_iff]
  cases lookupA ns k <;> simp

theorem lookupA_of_mem_nodup {α : Type} {ns : List (String × α)} {k : String} {v : α}
    (hnd : (keysOf ns).Nodup) (hmem : (k, v) ∈ ns) : lookupA ns k = some v := by
  induction ns with
  | nil => cases hmem
  | cons e rest ih =>
    obtain ⟨k1, v1⟩ := e
    simp only [keysOf, List.map_cons, List.nodup_cons] at hnd
    rcases List.mem_cons.mp hmem with h | h
    · obtain ⟨h1, h2⟩ := Prod.mk.injEq .. ▸ h
      cases h
      simp [lookupA]
    · have hk : k ∈ keysOf rest := List.mem_map.mpr ⟨(k, v), h, rfl⟩
      have hne : k1 ≠ k := fun he => hnd.1 (he ▸ hk)
      simp only [lookupA, if_neg hne]
      exact ih hnd.2 h

theorem mem_nodup_unique {α : Type} {ns : List (String × α)} {k : String} {a b : α}
    (hnd : (keysOf ns).Nodup) (ha : (k, a) ∈ ns) (hb : (k, b) ∈ ns) : a = b := by
  have h1 := lookupA_of_mem_nodup hnd ha
  have h2 := lookupA_of_mem_nodup hnd hb
  rw [h1] at h2
  exact (Option.some.injEq .. ▸ h2)

theorem lookupA_mapVal {α β : Type} (g : String → α → β) (ns : List (String × α)) (k : String) :
    lookupA (ns.map (fun e => (e.1, g e.1 e.2))) k = (lookupA ns k).map (g k) := by
  induction ns with
  | nil => rfl
  | cons e rest ih =>
    obtain ⟨k1, v1⟩ := e
    by_cases h : k1 = k
    · subst h
      simp [lookupA]
    · simp only [List.map_cons, lookupA, if_neg h]
      exact ih

theorem keysOf_mapVal {α β : Type} (g : String → α → β) (ns : List (String × α)) :
    keysOf (ns.map (fun e => (e.1, g e.1 e.2))) = keysOf ns := by
  simp [keysOf, List.map_map, Function.comp]

theorem nodup_length_le_dedup {p q : List String} (hp : p.Nodup)
    (hsub : ∀ x ∈ p, x ∈ q) : p.length ≤ q.dedup.length := by
  have h1 : p.toFinset.card = p.length := List.toFinset_card_of_nodup hp
  have h2 : p.toFinset ⊆ q.toFinset := by
    intro x hx
    rw [List.mem_toFinset] at hx ⊢
    exact hsub x hx
  calc p.length = p.toFinset.card := h1.symm
    _ ≤ q.toFinset.card := Finset.card_le_card h2
    _ = q.dedup.length := List.card_toFinset q

/-! ### Termination and shape of the cycle-guarded upward walk -/

/-- Loop invariant of compute_path_from_root's while-loop: starting from a
duplicate-free accumulated path inside the key set, the loop always exits
normally (the cycle guard fires before any id repeats), only appends to the
path, and the last appended node's parent is either absent, unknown,
already on the path, or the falsy empty string. -/
theorem pathLoop_invariant (nodes : List (String × PNode)) :
    ∀ (fuel : Nat) (path : List String) (current : String),
      path.Nodup →
      (∀ x ∈ path, x ∈ keysOf nodes) →
      current ∉ path →
      (current = "" ∨ (lookupA nodes current).isSome = true) →
      (keysOf nodes).dedup.length + 1 ≤ fuel + path.length →
      ∃ q, pathLoop nodes path current fuel = .done q ∧
        q.Nodup ∧
        (∀ x ∈ q, x ∈ keysOf nodes) ∧
        (∃ t, q = path ++ t) ∧
        (current ≠ "" → ∃ t, q = path ++ current :: t) ∧
        ((q = path ∧ current = "") ∨
          (∃ last nd, q.getLast? = some last ∧ lookupA nodes last = some nd ∧
            (nd.parent_id = none ∨
              ∃ p, nd.parent_id = some p ∧
                (lookupA nodes p = none ∨ p ∈ q ∨ p = "")))) := by
  intro fuel
  induction fuel with
  | zero =>
    intro path current hnd hsub _ _ harith
    exfalso
    have hle : path.length ≤ (keysOf nodes).dedup.length := nodup_length_le_dedup hnd hsub
    omega
  | succ n ih =>
    intro path current hnd hsub hcp hcur harith
    by_cases hc : current = ""
    · refine ⟨path, by simp [pathLoop, hc], hnd, hsub, ⟨[], by simp⟩, ?_, Or.inl ⟨rfl, hc⟩⟩
      intro h
      exact absurd hc h
    · rcases hcur with hcur | hcur
      · exact absurd hcur hc
      obtain ⟨nd, hnd2⟩ := Option.isSome_iff_exists.mp hcur
      have hmem : current ∈ keysOf nodes := (lookupA_isSome_iff nodes current).mp hcur
      have hnd3 : (path ++ [current]).Nodup := by
        rw [List.nodup_append]
        refine ⟨hnd, List.nodup_singleton _, ?_⟩
        intro a ha hb
        simp only [List.mem_singleton] at hb
        exact hcp (hb ▸ ha)
      have hsub3 : ∀ x ∈ path ++ [current], x ∈ keysOf nodes := by
        intro x hx
        rcases List.mem_append.mp hx with hx | hx
        · exact hsub x hx
        · simp only [List.mem_singleton] at hx
          subst hx
          exact hmem
      have hlast : (path ++ [current]).getLast? = some current := List.getLast?_concat path
      rcases hpid : nd.parent_id with _ | pid
      · refine ⟨path ++ [current], by simp [pathLoop, hc, hnd2, hpid], hnd3, hsub3,
          ⟨[current], rfl⟩, fun _ => ⟨[], rfl⟩,
          Or.inr ⟨current, nd, hlast, hnd2, Or.inl hpid⟩⟩
      · by_cases hpl : lookupA nodes pid = none
        · refine ⟨path ++ [current], by simp [pathLoop, hc, hnd2, hpid, hpl], hnd3, hsub3,
            ⟨[current], rfl⟩, fun _ => ⟨[], rfl⟩,
            Or.inr ⟨current, nd, hlast, hnd2, Or.inr ⟨pid, hpid, Or.inl hpl⟩⟩⟩
        · by_cases hpm : pid ∈ path ++ [current]
          · refine ⟨path ++ [current], by simp [pathLoop, hc, hnd2, hpid, hpl, hpm], hnd3, hsub3,
              ⟨[current], rfl⟩, fun _ => ⟨[], rfl⟩,
              Or.inr ⟨current, nd, hlast, hnd2, Or.inr ⟨pid, hpid, Or.inr (Or.inl hpm)⟩⟩⟩
          · have hpisome : (lookupA nodes pid).isSome = true := by
              cases hl : lookupA nodes pid with
              | none => exact absurd hl hpl
              | some _ => rfl
            have harith2 : (keysOf nodes).dedup.length + 1 ≤ n + (path ++ [current]).length := by
              simp only [List.length_append, List.length_singleton]
              omega
            obtain ⟨q, hq, hqnd, hqsub, hqext, _, hqlast⟩ :=
              ih (path ++ [current]) pid hnd3 hsub3 hpm (Or.inr hpisome) harith2
            obtain ⟨t, hqt⟩ := hqext
            refine ⟨q, ?_, hqnd, hqsub, ⟨current :: t, by simp [hqt]⟩,
              fun _ => ⟨t, by simp [hqt]⟩, ?_⟩
            · have hred : pathLoop nodes path current (n + 1) =
                  pathLoop nodes (path ++ [current]) pid n := by
                simp [pathLoop, hc, hnd2, hpid, hpl, hpm]
              rw [hred]
              exact hq
            · rcases hqlast with ⟨hq1, hpe⟩ | hrest
              · exact Or.inr ⟨current, nd, hq1 ▸ hlast, hnd2,
                  Or.inr ⟨pid, hpid, Or.inr (Or.inr hpe)⟩⟩
              · exact Or.inr hrest

/-- compute_path_from_root on a known, non-empty id: fuel nodes.length + 1
always suffices, the reversed result starts at the looked-up id, and the
walk ends at a node whose parent is absent, unknown, on the path, or the
empty string. -/
theorem compute_path_spec (nodes : List (String × PNode)) (node_id : String)
    (h : (lookupA nodes node_id).isSome = true) (hne : node_id ≠ "") :
    ∃ q, compute_path_from_root nodes node_id = q.reverse ∧
      q.Nodup ∧ (∀ x ∈ q, x ∈ keysOf nodes) ∧ (∃ t, q = node_id :: t) ∧
      (∃ last nd, q.getLast? = some last ∧ lookupA nodes last = some nd ∧
        (nd.parent_id = none ∨ ∃ p, nd.parent_id = some p ∧
          (lookupA nodes p = none ∨ p ∈ q ∨ p = ""))) := by
  have harith : (keysOf nodes).dedup.length + 1 ≤
      (nodes.length + 1) + ([] : List String).length := by
    have h1 : (keysOf nodes).dedup.length ≤ (keysOf nodes).length :=
      List.Sublist.length_le (List.dedup_sublist _)
    have h2 : (keysOf nodes).length = nodes.length := List.length_map _ _
    simp only [List.length_nil, Nat.add_zero]
    omega
  obtain ⟨q, hq, hqnd, hqsub, _, hqcons, hqlast⟩ :=
    pathLoop_invariant nodes (nodes.length + 1) [] node_id List.nodup_nil
      (by intro x hx; cases hx) (by simp) (Or.inr h) harith
  obtain ⟨t, hqt⟩ := hqcons hne
  have hnn : ¬ lookupA nodes node_id = none := by
    intro hcon
    rw [hcon] at h
    cases h
  refine ⟨q, ?_, hqnd, hqsub, ⟨t, by simpa using hqt⟩, ?_⟩
  · simp only [compute_path_from_root, compute_path_from_rootF, if_neg hnn, hq]
  · rcases hqlast with ⟨_, hceq⟩ | hrest
    · exact absurd hceq hne
    · exact hrest

/-- The two-node cyclic mapping of the spec's example: A's parent is B and
B's parent is A (as processed nodes, i.e. with parent_id keys). -/
def cycNodes : List (String × PNode) :=
  [("A", { id := "A", parent_id := some "B" }),
   ("B", { id := "B", parent_id := some "A" })]

/-- On the cyclic two-node mapping the unguarded mainline while-loop never
exits: whatever the accumulated path, stepping from A or B recurses
forever, so every finite fuel is exhausted. -/
theorem cyc_mainlineLoop_running :
    ∀ (fuel : Nat) (path : List String) (c : String),
      c = "A" ∨ c = "B" → mainlineLoop cycNodes path c fuel = .running := by
  intro fuel
  induction fuel with
  | zero =>
    intro path c _
    rfl
  | succ n ih =>
    intro path c hc
    rcases hc with h | h <;> subst h
    · have hred : mainlineLoop cycNodes path "A" (n + 1) =
          mainlineLoop cycNodes (path ++ ["A"]) "B" n := by
        simp [mainlineLoop, cycNodes, lookupA]
      rw [hred]
      exact ih (path ++ ["A"]) "B" (Or.inr rfl)
    · have hred : mainlineLoop cycNodes path "B" (n + 1) =
          mainlineLoop cycNodes (path ++ ["B"]) "A" n := by
        simp [mainlineLoop, cycNodes, lookupA]
      rw [hred]
      exact ih (path ++ ["B"]) "A" (Or.inl rfl)

/-! ### process_nodes inversion and the generation-type classifier -/

/-- Inversion of process_nodes: success names the finished mainline walk
and exhibits the output as the extracted mapping with derived attached. -/
theorem process_nodes_eq_some {mapping : List (String × RawNode)}
    {current_node_id : Option String} {fuel : Nat} {ns : List (String × PNode)}
    (h : process_nodes mapping current_node_id fuel = some ns) :
    ∃ mp, determine_mainline_path (extractAll mapping) current_node_id fuel = .done mp ∧
      ns = (extractAll mapping).map (fun e =>
        (e.1, { e.2 with derived := some (mkDerived (extractAll mapping) mp e.1 e.2) })) := by
  unfold process_nodes at h
  cases hm : determine_mainline_path (extractAll mapping) current_node_id fuel with
  | done mp =>
    rw [hm] at h
    exact ⟨mp, rfl, (Option.some.injEq .. ▸ h).symm⟩
  | running =>
    rw [hm] at h
    cases h
  | keyError =>
    rw [hm] at h
    cases h

/-- Looking a key up in the extracted mapping is extracting the raw
binding. -/
theorem lookupA_extractAll (mapping : List (String × RawNode)) (x : String) :
    lookupA (extractAll mapping) x = (lookupA mapping x).map (extract_node_data x) :=
  lookupA_mapVal extract_node_data mapping x

theorem extract_is_user (x : String) (r : RawNode) :
    (extract_node_data x r).is_user = none := rfl

theorem extract_parent_id (x : String) (r : RawNode) :
    (extract_node_data x r).parent_id = r.parent := rfl

/-- is_regeneration on any extracted mapping is constantly false: the
is_user key it gates on is never written, so the parent check
(if not parent.get of is_user) always returns early. -/
theorem is_regeneration_extract (mapping : List (String × RawNode)) (x : String) :
    is_regeneration (extractAll mapping) x = false := by
  unfold is_regeneration
  rw [lookupA_extractAll]
  cases hx : lookupA mapping x with
  | none => rfl
  | some r =>
    simp only [Option.map_some', extract_is_user, extract_parent_id, truthyOB]
    cases hp : r.parent with
    | none => rfl
    | some pid =>
      by_cases hpe : pid = ""
      · simp [hpe]
      · simp only [if_neg hpe]
        rw [lookupA_extractAll]
        cases hp2 : lookupA mapping pid with
        | none => rfl
        | some r2 => simp [extract_is_user, truthyOB]

/-- The classifier on any extracted mapping: the is_user key is always
absent, so the user branches and the regeneration branch are dead code and
every node is classified standard_response. -/
theorem determine_generation_type_extract (mapping : List (String × RawNode)) (x : String) :
    determine_generation_type (extractAll mapping) x = "standard_response" := by
  unfold determine_generation_type
  rw [lookupA_extractAll]
  cases hx : lookupA mapping x with
  | none => simp [truthyOB, is_regeneration_extract]
  | some r => simp [extract_is_user, truthyOB, is_regeneration_extract]

/-! ### Concrete example inputs -/

/-- A minimal well-formed export mapping: user root R with assistant
child A. -/
def exMap : List (String × RawNode) :=
  [("R", { children := ["A"],
           message := some { author_role := some "user", content := .cstr "hi" } }),
   ("A", { parent := some "R",
           message := some { author_role := some "assistant", content := .cstr "hello" } })]

/-- The processed nodes of exMap with current node A. -/
def exNodes : List (String × PNode) :=
  (process_nodes exMap (some "A") 5).getD []

/-! ### C1 -/

/-- C1: the claim states that both compute_path_from_root and
determine_mainline_path detect a repeated node id during the upward
traversal and truncate instead of looping forever.  On the cyclic mapping
(A's parent is B, B's parent is A) the cycle-guarded compute_path_from_root
indeed truncates, returning a path of length 2, but determine_mainline_path
has no cycle guard: its loop is still running after every finite number of
iterations, i.e. the source loops forever on this export. -/
theorem c1_mainline_walk_never_terminates_on_cycle :
    (∀ fuel : Nat, determine_mainline_path cycNodes (some "A") fuel = .running) ∧
    compute_path_from_root cycNodes "A" = ["B", "A"] ∧
    (compute_path_from_root cycNodes "A").length ≤ 2 := by
  refine ⟨?_, by decide, by decide⟩
  intro fuel
  have h := cyc_mainlineLoop_running fuel [] "A" (Or.inl rfl)
  have hlk : ¬ lookupA cycNodes "A" = none := by decide
  simp only [determine_mainline_path, if_neg hlk, h]

/-! ### C2 -/

/-- C2: the claim states the derived generation_type distinguishes
initial_prompt, user_continuation, regeneration and standard_response by
role and structure.  In the source every branch other than
standard_response is dead: the classifier reads an is_user key that
extract_node_data never writes, so every processed node - including user
roots - is classified standard_response. -/
theorem c2_generation_type_always_standard_response
    (mapping : List (String × RawNode)) (current_node_id : Option String)
    (fuel : Nat) (ns : List (String × PNode))
    (h : process_nodes mapping current_node_id fuel = some ns) :
    ∀ e ∈ ns, ∃ d, e.2.derived = some d ∧ d.generation_type = some "standard_response" := by
  obtain ⟨mp, _, hns⟩ := process_nodes_eq_some h
  subst hns
  intro e he
  obtain ⟨e0, _, heq⟩ := List.mem_map.mp he
  subst heq
  refine ⟨_, rfl, ?_⟩
  show (mkDerived (extractAll mapping) mp e0.1 e0.2).generation_type = some "standard_response"
  unfold mkDerived
  rw [determine_generation_type_extract]

/-- Witness for C2 at the concrete export exMap: the run succeeds and the
user root R is classified standard_response along with every other node. -/
theorem c2_witness :
    ∃ ns, process_nodes exMap (some "A") 5 = some ns ∧
      (∀ e ∈ ns, ∃ d, e.2.derived = some d ∧ d.generation_type = some "standard_response") ∧
      ((lookupA ns "R").bind (fun n => n.derived.bind (·.generation_type))) =
        some "standard_response" :=
  ⟨_, rfl, c2_generation_type_always_standard_response exMap (some "A") 5 _ rfl, by decide⟩

/-! ### C10 -/

/-- C10: when the raw export contains the current_node key,
find_current_node returns the stored value unchanged - even when it is
null or not an id of the mapping - so the root fallback applies only when
the key is absent; and a null current node makes the mainline walk return
the empty path immediately, so every processed node is derived
non-mainline no matter which roots exist. -/
theorem c10_current_node_verbatim :
    (∀ (data : ExportData) (mapping : List (String × RawNode)) (v : Option String),
      data.current_node = some v → find_current_node data mapping = v) ∧
    (∀ (mapping : List (String × RawNode)) (fuel : Nat),
      determine_mainline_path (extractAll mapping) none fuel = .done [] ∧
      ∃ ns, process_nodes mapping none fuel = some ns ∧
        ∀ e ∈ ns, derived_is_mainline e.2 = false) := by
  constructor
  · intro data mapping v hv
    unfold find_current_node
    rw [hv]
  · intro mapping fuel
    refine ⟨rfl, ?_⟩
    refine ⟨_, rfl, ?_⟩
    intro e he
    obtain ⟨e0, _, heq⟩ := List.mem_map.mp he
    subst heq
    show derived_is_mainline
      { e0.2 with derived := some (mkDerived (extractAll mapping) [] e0.1 e0.2) } = false
    simp [derived_is_mainline, mkDerived]

/-- Witness for C10: the export carries current_node: null while a root R
exists; the stored null is returned verbatim and both nodes end up
non-mainline. -/
theorem c10_witness :
    find_current_node { current_node := some none } exMap = none ∧
    find_root_nodes exMap = ["R"] ∧
    ∃ ns, process_nodes exMap none 5 = some ns ∧
      ∀ e ∈ ns, derived_is_mainline e.2 = false := by
  refine ⟨c10_current_node_verbatim.1 _ exMap none rfl, by decide, ?_⟩
  exact (c10_current_node_verbatim.2 exMap 5).2

/-! ### C7 -/

/-- C7: the claim states the fallback with no current_node pointer returns
the FIRST root in mapping iteration order; in the source root_nodes[-1] is
returned, i.e. the LAST root encountered.  Amended form: for any mapping
that splits as pre ++ [(rid, root)] ++ post where every post entry has a
parent, the fallback returns rid, the last root in iteration order. -/
theorem c7_fallback_returns_last_root (data : ExportData)
    (pre post : List (String × RawNode)) (rid : String) (rn : RawNode)
    (hck : data.current_node = none) (hroot : rn.parent = none)
    (hpost : ∀ e ∈ post, e.2.parent ≠ none) :
    find_current_node data (pre ++ (rid, rn) :: post) = some rid := by
  unfold find_current_node
  rw [hck]
  unfold find_root_nodes
  rw [List.filter_append]
  have hp : List.filter (fun e => decide (e.2.parent = none)) post = [] := by
    rw [List.filter_eq_nil_iff]
    intro a ha
    simp [hpost a ha]
  have hcons : List.filter (fun e => decide (e.2.parent = none)) ((rid, rn) :: post) =
      (rid, rn) :: List.filter (fun e => decide (e.2.parent = none)) post := by
    rw [List.filter_cons]
    simp [hroot]
  rw [hcons, hp, List.map_append]
  simp [List.getLast?_concat]

/-- The two-root mapping for C7: both r1 and r2 are parentless. -/
def twoRootMap : List (String × RawNode) := [("r1", {}), ("r2", {})]

/-- C7 counterexample: with two roots and no current_node key the source
returns the last root of the iteration order (r2), not the first (r1). -/
theorem c7_cex :
    find_root_nodes twoRootMap = ["r1", "r2"] ∧
    find_current_node {} twoRootMap = some "r2" ∧
    some "r2" ≠ some "r1" := by decide

/-- Witness for C7 at the two-root mapping: the fallback yields r2. -/
theorem c7_witness : find_current_node {} twoRootMap = some "r2" :=
  c7_fallback_returns_last_root {} [("r1", {})] [] "r2" {} rfl rfl
    (fun e he => absurd he (List.not_mem_nil e))

/-! ### C8 -/

/-- C8: the claim states turn_number = len(path_from_root) and
branch_depth = turn_number - 1 for every node.  The first half holds
unconditionally (both fields recompute the same walk); the second half
holds for every node whose id is non-empty - the amended form - while the
empty-string id (falsy in Python) yields an empty path with turn 0 and
depth 0 rather than -1. -/
theorem c8_turn_number_and_branch_depth
    (mapping : List (String × RawNode)) (current_node_id : Option String)
    (fuel : Nat) (ns : List (String × PNode))
    (h : process_nodes mapping current_node_id fuel = some ns) :
    ∀ e ∈ ns, ∃ d, e.2.derived = some d ∧
      d.turn_number = some d.path_from_root.length ∧
      (e.1 ≠ "" → (d.branch_depth : ℤ) = (d.path_from_root.length : ℤ) - 1) := by
  obtain ⟨mp, _, hns⟩ := process_nodes_eq_some h
  subst hns
  intro e he
  obtain ⟨e0, he0, heq⟩ := List.mem_map.mp he
  subst heq
  refine ⟨_, rfl, rfl, ?_⟩
  intro hne
  have hkey : (lookupA (extractAll mapping) e0.1).isSome = true :=
    (lookupA_isSome_iff _ _).mpr (List.mem_map.mpr ⟨e0, he0, rfl⟩)
  obtain ⟨q, hqrev, _, _, ⟨t, hqt⟩, _⟩ := compute_path_spec (extractAll mapping) e0.1 hkey hne
  have hpne : compute_path_from_root (extractAll mapping) e0.1 ≠ [] := by
    rw [hqrev, hqt]
    simp
  have hlen : (compute_path_from_root (extractAll mapping) e0.1).length = t.length + 1 := by
    rw [hqrev, hqt]
    simp
  show ((if compute_path_from_root (extractAll mapping) e0.1 ≠ [] then
      (compute_path_from_root (extractAll mapping) e0.1).length - 1 else 0 : ℕ) : ℤ) =
    ((compute_path_from_root (extractAll mapping) e0.1).length : ℤ) - 1
  rw [if_pos hpne, hlen]
  omega

/-- The pathological mapping whose single node id is the empty string. -/
def emptyIdMap : List (String × RawNode) := [("", {})]

/-- C8 counterexample: the empty-string node gets turn_number 0 and
branch_depth 0, and 0 differs from 0 - 1. -/
theorem c8_cex :
    ((process_nodes emptyIdMap none 5).bind (fun ns => (lookupA ns "").bind (·.derived))).map
      (fun d => (d.turn_number, d.branch_depth)) = some (some 0, 0) ∧
    ((0 : ℤ) ≠ (0 : ℤ) - 1) := by decide

/-- Witness for C8 at the concrete export exMap. -/
theorem c8_witness :
    ∃ ns, process_nodes exMap (some "A") 5 = some ns ∧
      ∀ e ∈ ns, ∃ d, e.2.derived = some d ∧
        d.turn_number = some d.path_from_root.length ∧
        (e.1 ≠ "" → (d.branch_depth : ℤ) = (d.path_from_root.length : ℤ) - 1) :=
  ⟨_, rfl, c8_turn_number_and_branch_depth exMap (some "A") 5 _ rfl⟩

/-! ### C9 -/

/-- C9: amended form.  (1) When the empty string is not a key, every path
of a mapped node is non-empty, ends at that node, and starts at a node
whose parent is null, missing from the mapping, or - when a cycle was
truncated - already on the returned path (the extra disjunct the cycle
guard forces).  (2) A node whose parent refers to a missing id starts its
own path even though find_root_nodes, which demands a literally null
parent, does not list it as a root. -/
theorem c9_path_endpoints :
    (∀ (nodes : List (String × PNode)) (node_id : String),
      "" ∉ keysOf nodes → node_id ∈ keysOf nodes →
      compute_path_from_root nodes node_id ≠ [] ∧
      (compute_path_from_root nodes node_id).getLast? = some node_id ∧
      (∃ f nd, (compute_path_from_root nodes node_id).head? = some f ∧
        lookupA nodes f = some nd ∧
        (nd.parent_id = none ∨ ∃ p, nd.parent_id = some p ∧
          (lookupA nodes p = none ∨ p ∈ compute_path_from_root nodes node_id)))) ∧
    (∀ (mapping : List (String × RawNode)) (node_id : String) (rn : RawNode) (q : String),
      (keysOf mapping).Nodup → (node_id, rn) ∈ mapping → node_id ≠ "" →
      rn.parent = some q → q ∉ keysOf mapping →
      node_id ∉ find_root_nodes mapping ∧
      compute_path_from_root (extractAll mapping) node_id = [node_id]) := by
  constructor
  · intro nodes node_id hempty hid
    have hne : node_id ≠ "" := fun hcon => hempty (hcon ▸ hid)
    have hkey : (lookupA nodes node_id).isSome = true := (lookupA_isSome_iff _ _).mpr hid
    obtain ⟨q, hqrev, _, _, ⟨t, hqt⟩, ⟨last, nd, hql, hnd, hdisj⟩⟩ :=
      compute_path_spec nodes node_id hkey hne
    refine ⟨by rw [hqrev, hqt]; simp, ?_, last, nd, ?_, hnd, ?_⟩
    · rw [hqrev, List.getLast?_reverse, hqt]
      rfl
    · rw [hqrev, List.head?_reverse, hql]
    · rcases hdisj with hdisj | ⟨p, hp, hdisj⟩
      · exact Or.inl hdisj
      · refine Or.inr ⟨p, hp, ?_⟩
        rcases hdisj with hdisj | hdisj | hdisj
        · exact Or.inl hdisj
        · exact Or.inr (by rw [hqrev, List.mem_reverse]; exact hdisj)
        · exact Or.inl (by rw [hdisj, lookupA_eq_none_iff]; exact hempty)
  · intro mapping node_id rn q hnd hmem hne hq hqk
    have hlkr : lookupA mapping node_id = some rn := lookupA_of_mem_nodup hnd hmem
    have hlk : lookupA (extractAll mapping) node_id = some (extract_node_data node_id rn) := by
      rw [lookupA_extractAll, hlkr]
      rfl
    have hqnone : lookupA (extractAll mapping) q = none := by
      rw [lookupA_extractAll, (lookupA_eq_none_iff mapping q).mpr hqk]
      rfl
    constructor
    · intro hcon
      unfold find_root_nodes at hcon
      obtain ⟨e, hef, hefst⟩ := List.mem_map.mp hcon
      obtain ⟨hem, hep⟩ := List.mem_filter.mp hef
      have heq : e.2 = rn := by
        have : (node_id, e.2) ∈ mapping := by
          have : e = (node_id, e.2) := by
            rw [← hefst]
          rw [← this]
          exact hem
        exact mem_nodup_unique hnd this hmem
      rw [heq] at hep
      rw [hq] at hep
      cases hep
    · have hstep : pathLoop (extractAll mapping) [] node_id
          ((extractAll mapping).length + 1) = .done [node_id] := by
        simp [pathLoop, hne, hlk, extract_parent_id, hq, hqnone]
      have hlkne : ¬ lookupA (extractAll mapping) node_id = none := by
        rw [hlk]
        intro hcon
        cases hcon
      simp only [compute_path_from_root, compute_path_from_rootF, if_neg hlkne, hstep,
        List.reverse_singleton]

/-- C9 counterexample: in the cyclic two-node mapping the path of A is
[B, A], whose first element B has parent A, which is itself a key of the
mapping - neither null nor missing as the claim demands. -/
theorem c9_cex :
    compute_path_from_root cycNodes "A" = ["B", "A"] ∧
    (compute_path_from_root cycNodes "A").head? = some "B" ∧
    ((lookupA cycNodes "B").map (·.parent_id)) = some (some "A") ∧
    (lookupA cycNodes "A").isSome = true := by decide

/-- The one-node mapping whose parent reference names a missing id. -/
def orphanMap : List (String × RawNode) := [("X", { parent := some "ghost" })]

/-- Witness for C9 at concrete inputs: the processed exMap nodes for part
one, the dangling-parent mapping for part two. -/
theorem c9_witness :
    ((compute_path_from_root exNodes "A").getLast? = some "A") ∧
    ("X" ∉ find_root_nodes orphanMap ∧
      compute_path_from_root (extractAll orphanMap) "X" = ["X"]) :=
  ⟨(c9_path_endpoints.1 exNodes "A" (by decide) (by decide)).2.1,
   c9_path_endpoints.2 orphanMap "X" { parent := some "ghost" } "ghost"
     (by decide) (by decide) (by decide) rfl (by decide)⟩

/-! ### C5 -/

/-- C5: the claim states turn_number and branch_depth are copied from the
response node's derived fields without recomputation.  Amended form: the
branch_depth is copied unchanged, but the turn_number stored on the pair
is the response node's derived turn_number floor-divided by two. -/
theorem c5_pair_fields_from_response (nodes : List (String × PNode)) :
    ∀ p ∈ create_pairs nodes, ∃ c, lookupA nodes p.response_id = some c ∧
      p.branch_depth = (c.derived.map (·.branch_depth)).getD 0 ∧
      p.turn_number = (derived_turn_number c).getD 0 / 2 := by
  intro p hp
  unfold create_pairs at hp
  rw [List.mem_flatten] at hp
  obtain ⟨l, hl, hpl⟩ := hp
  rw [List.mem_map] at hl
  obtain ⟨e, _, heq⟩ := hl
  subst heq
  by_cases hrole : author_role e.2 ≠ some "user"
  · rw [if_pos hrole] at hpl
    cases hpl
  · rw [if_neg hrole] at hpl
    rw [List.mem_filterMap] at hpl
    obtain ⟨cid, _, hsome⟩ := hpl
    cases hlk : lookupA nodes cid with
    | none =>
      rw [hlk] at hsome
      cases hsome
    | some child =>
      rw [hlk] at hsome
      dsimp only at hsome
      by_cases hcr : author_role child = some "assistant"
      · rw [if_pos hcr] at hsome
        obtain rfl := Option.some.inj hsome
        exact ⟨child, hlk, rfl, rfl⟩
      · rw [if_neg hcr] at hsome
        cases hsome

/-- C5 counterexample: on the processed exMap the single pair carries
turn_number 1 while its response node's derived turn_number is 2. -/
theorem c5_cex :
    (create_pairs exNodes).map (fun p => p.turn_number) = [1] ∧
    ((lookupA exNodes "A").bind derived_turn_number) = some 2 ∧
    (1 : Nat) ≠ 2 := by decide

/-- The pair emitted for exMap. -/
def exPair : Pair :=
  { id := "R_A", prompt_id := "R", response_id := "A", is_mainline := true,
    is_alternate := false, turn_number := 1, branch_depth := 1, path_from_root := ["R"] }

/-- Witness for C5 at the concrete pair of exMap. -/
theorem c5_witness :
    ∃ c, lookupA exNodes exPair.response_id = some c ∧
      exPair.branch_depth = (c.derived.map (·.branch_depth)).getD 0 ∧
      exPair.turn_number = (derived_turn_number c).getD 0 / 2 :=
  c5_pair_fields_from_response exNodes exPair (by decide)

/-! ### C6 -/

/-- Per-part contribution of node_processor._extract_content: the text of
a string part or of a dict part carrying a text key, empty otherwise. -/
def partContrib : CPart → String
  | .pstr s => s
  | .pdict (some t) => t
  | _ => ""

/-- A part that contributes text: a plain string or a dict with text. -/
def textualPart : CPart → Bool
  | .pstr _ => true
  | .pdict (some _) => true
  | _ => false

/-- The accumulator loop of _extract_content equals appending the
separator-free concatenation of all contributions. -/
theorem extract_content_foldl (parts : List CPart) :
    ∀ acc : String, List.foldl (fun acc p =>
      match p with
      | CPart.pstr s => acc ++ s
      | CPart.pdict (some t) => acc ++ t
      | _ => acc) acc parts = acc ++ (parts.map partContrib).foldr (· ++ ·) "" := by
  induction parts with
  | nil =>
    intro acc
    simp
  | cons p rest ih =>
    intro acc
    cases p with
    | pstr s =>
      simp only [List.foldl_cons, List.map_cons, List.foldr_cons, partContrib]
      rw [ih, String.append_assoc]
    | pdict t =>
      cases t with
      | none =>
        simp only [List.foldl_cons, List.map_cons, List.foldr_cons, partContrib]
        rw [ih, String.empty_append]
      | some s =>
        simp only [List.foldl_cons, List.map_cons, List.foldr_cons, partContrib]
        rw [ih, String.append_assoc]
    | pother =>
      simp only [List.foldl_cons, List.map_cons, List.foldr_cons, partContrib]
      rw [ih, String.empty_append]

/-- Textual parts contribute exactly their texts to the embedder's
collection scan. -/
theorem partTexts_eq (parts : List CPart)
    (hp : ∀ p ∈ parts, textualPart p = true) :
    partTexts parts = parts.map partContrib := by
  induction parts with
  | nil => rfl
  | cons p rest ih =>
    have hp0 : textualPart p = true := hp p (List.mem_cons_self p rest)
    have hrest : ∀ q ∈ rest, textualPart q = true :=
      fun q hq => hp q (List.mem_cons_of_mem p hq)
    have ih2 := ih hrest
    simp only [partTexts] at ih2
    cases p with
    | pstr s => simp [partTexts, List.filterMap_cons, partContrib, ih2]
    | pdict t =>
      cases t with
      | none => cases hp0
      | some s => simp [partTexts, List.filterMap_cons, partContrib, ih2]
    | pother => cases hp0

/-- A node dict whose message content carries only a parts list, as
node_embedder.extract_node_text reads it. -/
def partsENode (role ct2 : Option String) (parts : List CPart) : ENode :=
  { text := none
    message := some { author_role := role
                      content := .cdict ct2 (some parts) none } }

/-- C6: amended form.  The parser's content extractor concatenates the
texts of a parts list in declared order with NO separator (and a
content-type tag defaulting to text); it is the embedder's
extract_node_text that joins the collected texts with a single space
(returning no content-type tag at all). -/
theorem c6_parts_concatenation (ct ct2 role tx : Option String) (parts : List CPart) :
    extract_content (.cdict ct (some parts) tx) =
      ((parts.map partContrib).foldr (· ++ ·) "", ct.getD "text") ∧
    ((∀ p ∈ parts, textualPart p = true) → parts ≠ [] →
      extract_node_text (partsENode role ct2 parts) =
      some (String.intercalate " " (parts.map partContrib))) := by
  constructor
  · have hfalsy : RawContent.falsy (.cdict ct (some parts) tx) = false := by
      simp [RawContent.falsy]
    simp only [extract_content, hfalsy, Bool.false_eq_true, if_false]
    rw [extract_content_foldl parts ""]
    rw [String.empty_append]
  · intro hp hne
    have htexts : partTexts parts = parts.map partContrib := partTexts_eq parts hp
    have hmapne : parts.map partContrib ≠ [] := by
      intro hcon
      exact hne (List.map_eq_nil_iff.mp hcon)
    simp only [partsENode, extract_node_text, Option.getD_none, ne_eq, not_true_eq_false,
      if_false, htexts]
    rw [if_neg hmapne]

/-- C6 counterexample: two string parts a and b are concatenated by the
parser's extractor to ab, not joined with a space as the claim states. -/
theorem c6_cex :
    extract_content (.cdict none (some [.pstr "a", .pstr "b"]) none) = ("ab", "text") ∧
    "ab" ≠ "a b" := by decide

/-- Witness for C6 at the two-part list. -/
theorem c6_witness :
    extract_content (.cdict none (some [CPart.pstr "a", CPart.pstr "b"]) none) =
      ((([CPart.pstr "a", CPart.pstr "b"]).map partContrib).foldr (· ++ ·) "", "text") ∧
    extract_node_text (partsENode none none [CPart.pstr "a", CPart.pstr "b"]) =
      some (String.intercalate " " (([CPart.pstr "a", CPart.pstr "b"]).map partContrib)) :=
  ⟨(c6_parts_concatenation none none none none [CPart.pstr "a", CPart.pstr "b"]).1,
   (c6_parts_concatenation none none none none [CPart.pstr "a", CPart.pstr "b"]).2
     (by decide) (by decide)⟩

/-! ### C3 -/

/-- The parent node of the zero-norm example, with embedding [1]. -/
def zeroP : PNode := { id := "P", embedding := some [1] }

/-- The child node of the zero-norm example, with the zero vector [0] as a
present embedding. -/
def zeroN : PNode := { id := "N", parent_id := some "P", embedding := some [0] }

/-- The two-node map on which the zero-norm division is reached. -/
def zeroNormNodes : List (String × PNode) := [("P", zeroP), ("N", zeroN)]

/-- C3: amended form.  The only skip conditions in the parent-child pass
are a missing embedding value or an empty list (Python truthiness), never
a zero norm: any present non-empty embeddings make the pass store a
distance for the node, and when the norm product is zero the stored
similarity is exactly the division of the dot product by the zero norm
product (IEEE nan). -/
theorem c3_zero_norm_not_skipped (nodes : List (String × PNode))
    (id : String) (n parent : PNode) (pid : String) (pe ne : List ℚ)
    (hnd : (keysOf nodes).Nodup) (hmem : (id, n) ∈ nodes)
    (hp : n.parent_id = some pid) (hpne : pid ≠ "")
    (hpar : lookupA nodes pid = some parent)
    (hpe : parent.embedding = some pe) (hne2 : n.embedding = some ne)
    (hpel : pe ≠ []) (hnel : ne ≠ []) :
    ∃ n', lookupA (calculate_parent_child_distances nodes) id = some n' ∧
      (n'.derived.bind (·.semantic_distance_from_parent)) =
        some (calculate_cosine_distance pe ne) ∧
      (normSq pe * normSq ne = 0 →
        calculate_cosine_similarity pe ne = .nanDiv (dotL pe ne)) := by
  obtain ⟨p0, ps, rfl⟩ := List.exists_cons_of_ne_nil hpel
  obtain ⟨q0, qs, rfl⟩ := List.exists_cons_of_ne_nil hnel
  have hlk : lookupA (calculate_parent_child_distances nodes) id =
      some (parentChildStep nodes id n) := by
    unfold calculate_parent_child_distances
    rw [lookupA_mapVal (parentChildStep nodes) nodes id, lookupA_of_mem_nodup hnd hmem]
    rfl
  refine ⟨parentChildStep nodes id n, hlk, ?_, ?_⟩
  · unfold parentChildStep
    rw [hp]
    dsimp only
    rw [if_neg hpne, hpar]
    dsimp only
    rw [hpe, hne2]
    dsimp only
    simp [setSDFP]
  · intro hz
    unfold calculate_cosine_similarity
    rw [if_neg (by simp), if_pos hz]

/-- C3 counterexample: node N carries the present zero vector [0] and its
parent P carries [1]; the pass does not skip N - it stores the distance
1 - (0 divided by the zero norm product), i.e. the nan division the claim
says never happens. -/
theorem c3_cex :
    ((lookupA (calculate_parent_child_distances zeroNormNodes) "N").bind
      (fun nd => nd.derived.bind (·.semantic_distance_from_parent))) =
      some (.distOf (.nanDiv 0)) := by
  have h2 : normSq [(1 : ℚ)] * normSq [(0 : ℚ)] = 0 := by
    simp [normSq]
  have h3 : dotL [(1 : ℚ)] [(0 : ℚ)] = 0 := by
    simp [dotL]
  have hsim : calculate_cosine_similarity [(1 : ℚ)] [(0 : ℚ)] = .nanDiv 0 := by
    unfold calculate_cosine_similarity
    rw [if_neg (by simp), if_pos h2, h3]
  have hstep : parentChildStep zeroNormNodes "N" zeroN =
      setSDFP zeroN (.distOf (.nanDiv 0)) := by
    unfold parentChildStep zeroN
    dsimp only
    have hlkP : lookupA zeroNormNodes "P" = some zeroP := rfl
    rw [if_neg (by decide), hlkP]
    dsimp only
    show setSDFP _ (calculate_cosine_distance [(1 : ℚ)] [(0 : ℚ)]) = _
    rw [calculate_cosine_distance, hsim]
  have hlkN : lookupA (calculate_parent_child_distances zeroNormNodes) "N" =
      some (parentChildStep zeroNormNodes "N" zeroN) := rfl
  rw [hlkN, hstep]
  simp [setSDFP, zeroN]

/-- Witness for C3 at the zero-norm example. -/
theorem c3_witness :
    ∃ n', lookupA (calculate_parent_child_distances zeroNormNodes) "N" = some n' ∧
      (n'.derived.bind (·.semantic_distance_from_parent)) =
        some (calculate_cosine_distance [1] [0]) ∧
      (normSq [(1 : ℚ)] * normSq [(0 : ℚ)] = 0 →
        calculate_cosine_similarity [(1 : ℚ)] [(0 : ℚ)] = .nanDiv (dotL [1] [0])) :=
  c3_zero_norm_not_skipped zeroNormNodes "N" zeroN zeroP "P" [1] [0]
    (by decide) (List.mem_cons_of_mem _ (List.mem_cons_self _ _)) rfl (by decide)
    rfl rfl rfl (by simp) (by simp)

/-! ### C4 -/

/-- Mainline node M of the divergence example: turn 1, embedded. -/
def c4M : PNode :=
  { id := "M", embedding := some [1],
    derived := some { is_mainline := true, turn_number := some 1 } }

/-- Branch node B of the divergence example: non-mainline, turn 2, its
divergence point refers to the embedded mainline node M, and it carries
its own embedding. -/
def c4B : PNode :=
  { id := "B", embedding := some [1],
    derived := some { is_mainline := false, turn_number := some 2,
                      mainline_divergence_point := some "M" } }

/-- The two-node conversation for C4. -/
def c4nodes : List (String × PNode) := [("M", c4M), ("B", c4B)]

/-- C4: amended form.  The divergence-point distance the claim describes is
computed by semantic_analyzer.calculate_branch_mainline_distances: for any
non-mainline node whose stored divergence point resolves inside the
filtered mainline sub-dict, with truthy embeddings on both ends, the pass
stores the cosine distance of the two embeddings under
semantic_distance_from_mainline.  (The pipeline's own semantic-ancestry
step never invokes this pass - see the counterexample.) -/
theorem c4_branch_mainline_divergence (nodes : List (String × PNode))
    (id : String) (n m : PNode) (dp : String) (be me : List ℚ)
    (hnd : (keysOf nodes).Nodup) (hmem : (id, n) ∈ nodes)
    (hml : derived_is_mainline n = false)
    (hdp : derived_divergence_point n = some dp) (hdpne : dp ≠ "")
    (hm : lookupA (nodes.filter (fun s => derived_is_mainline s.2)) dp = some m)
    (hbe : n.embedding = some be) (hme : m.embedding = some me)
    (hbel : be ≠ []) (hmel : me ≠ []) :
    ∃ n', lookupA (calculate_branch_mainline_distances nodes) id = some n' ∧
      (n'.derived.bind (·.semantic_distance_from_mainline)) =
        some (calculate_cosine_distance be me) := by
  obtain ⟨b0, bs, rfl⟩ := List.exists_cons_of_ne_nil hbel
  obtain ⟨c0, cs, rfl⟩ := List.exists_cons_of_ne_nil hmel
  have hlk : lookupA (calculate_branch_mainline_distances nodes) id =
      some (branchMainlineStep nodes id n) := by
    unfold calculate_branch_mainline_distances
    rw [lookupA_mapVal (branchMainlineStep nodes) nodes id, lookupA_of_mem_nodup hnd hmem]
    rfl
  refine ⟨_, hlk, ?_⟩
  unfold branchMainlineStep
  rw [hml, if_neg Bool.false_ne_true, hdp]
  dsimp only
  rw [if_neg hdpne, hm]
  dsimp only
  rw [hbe, hme]
  dsimp only
  simp [setSDFM]

/-- C4 counterexample: on c4nodes every precondition of the claim holds
for branch node B, yet the semantic-ancestry step the pipeline actually
runs (CartaEmbedder._calculate_semantic_ancestry) leaves
semantic_distance_from_mainline unset: its third pass matches branch
nodes to mainline nodes by equal turn_number (finding none here) and
would store under mainline_semantic_distance, not
semantic_distance_from_mainline. -/
theorem c4_cex :
    derived_is_mainline c4B = false ∧
    derived_divergence_point c4B = some "M" ∧
    derived_is_mainline c4M = true ∧
    c4M.embedding.isSome = true ∧
    c4B.embedding.isSome = true ∧
    ((lookupA (calculate_semantic_ancestry_embedder c4nodes) "B").bind
      (fun nd => nd.derived.bind (·.semantic_distance_from_mainline))) = none ∧
    ((lookupA (calculate_semantic_ancestry_embedder c4nodes) "B").bind
      (fun nd => nd.derived.bind (·.mainline_semantic_distance))) = none := by decide

/-- Witness for C4 at the two-node conversation. -/
theorem c4_witness :
    ∃ n', lookupA (calculate_branch_mainline_distances c4nodes) "B" = some n' ∧
      (n'.derived.bind (·.semantic_distance_from_mainline)) =
        some (calculate_cosine_distance [1] [1]) :=
  c4_branch_mainline_divergence c4nodes "B" c4B c4M "M" [1] [1]
    (by decide) (List.mem_cons_of_mem _ (List.mem_cons_self _ _)) rfl rfl (by decide)
    rfl rfl rfl (by simp) (by simp)
